import Mathlib

/-!
# Verification of the parts-inspection application (`app.py`)

Shallow embedding of the algorithmic core of the Streamlit parts-inspection
application: the criteria judge (`auto_judge`), the CSV catalog importer
(`parse_csv_file`, `check_duplicates`, `import_parts_from_csv`), the part
update operation (`update_part`), and the checklist aggregation / PDF-export
gate from `show_inspection_form_page`.

Python strings are modelled as Lean `String` (with `List Char` for character
scans); Python `float` parsing of decimal inputs is modelled exactly over `ℚ`
(sign, digit run, optional single dot, optional decimal exponent; IEEE special
values `inf`/`nan` and underscore digit separators are outside the model).
Python `None`-able values are modelled with `Option`, the Python `dict` used by
the overwrite-import with an insertion-ordered association list, and functions
that report failure with a boolean and no write (`update_part`) return
`Option`, `none` meaning `False` (no write happened).
-/

/- Batteries marks rational arithmetic `@[irreducible]`; concrete evaluations
in this development (witnesses and counterexamples) go through `decide`, which
needs these definitions to unfold. -/
attribute [local semireducible] Rat.add Rat.sub Rat.mul Rat.inv Rat.ofScientific

/-- Verdict of a single checklist item: Python returns the strings
`"合格"` (pass), `"不合格"` (fail) or `""` (indeterminate / no verdict). -/
inductive Verdict where
  | pass
  | fail
  | indet
deriving DecidableEq, Fintype

/-- Outcome of one of the two criteria-matching blocks inside the `try:` of
`auto_judge`: a returned verdict, a raised `ValueError` (caught by the
enclosing `except`, which skips any remaining block), or a fall-through. -/
inductive BranchOut where
  | decided (v : Verdict)
  | raised
  | skipped
deriving DecidableEq, Fintype

/-- Whitespace characters removed by Python `str.strip()` (ASCII part). -/
def isPySpace (c : Char) : Bool :=
  c = ' ' || c = '\t' || c = '\n' || c = '\r' || c = '\x0b' || c = '\x0c'

/-- Python `str.strip()` on a character list. -/
def stripL (l : List Char) : List Char :=
  ((l.dropWhile isPySpace).reverse.dropWhile isPySpace).reverse

/-- Python `str.upper()` (ASCII letters; the judge only compares to OK/NG). -/
def toUpperL (l : List Char) : List Char :=
  l.map Char.toUpper

/-- Python `result.replace(",", ".")`: every comma becomes a dot. -/
def commaNorm (l : List Char) : List Char :=
  l.map (fun c => if c = ',' then '.' else c)

/-- The regex character class `[\d.]` used by both criteria patterns. -/
def isDigitDot (c : Char) : Bool :=
  c.isDigit || c = '.'

/-- Numeric value of a decimal digit character. -/
def digitToNat (c : Char) : ℕ :=
  c.toNat - '0'.toNat

/-- Value of a run of decimal digits, most significant first. -/
def natOfDigits (l : List Char) : ℕ :=
  l.foldl (fun a c => 10 * a + digitToNat c) 0

/-- Value of the digits after the decimal point. -/
def fracOfDigits (l : List Char) : ℚ :=
  (natOfDigits l : ℚ) / ((10 : ℚ) ^ l.length)

/-- Python `float` on an unsigned string of digits and dots: defined iff the
string has at least one digit and at most one dot (so `float` of a captured
regex group such as `"1.2.3"` or `"."` raises `ValueError`). -/
def parseUnsigned (l : List Char) : Option ℚ :=
  if l.all isDigitDot && decide (l.count '.' ≤ 1) && l.any Char.isDigit then
    some ((natOfDigits (l.takeWhile (fun c => !(c = '.'))) : ℚ)
      + fracOfDigits (List.drop 1 (l.dropWhile (fun c => !(c = '.')))))
  else none

/-- Decimal exponent part after `e`/`E` in a Python float literal. -/
def parseExpPart : List Char → Option ℤ
  | [] => none
  | '+' :: ds => if ds ≠ [] ∧ ds.all Char.isDigit then some (natOfDigits ds : ℤ) else none
  | '-' :: ds => if ds ≠ [] ∧ ds.all Char.isDigit then some (-(natOfDigits ds : ℤ)) else none
  | ds => if ds.all Char.isDigit then some (natOfDigits ds : ℤ) else none

/-- Mantissa with optional decimal exponent (`"1.5e-2"`). -/
def parseMantExp (l : List Char) : Option ℚ :=
  if l.any (fun c => c = 'e' || c = 'E') then
    let m := l.takeWhile (fun c => !(c = 'e' || c = 'E'))
    let e := List.drop 1 (l.dropWhile (fun c => !(c = 'e' || c = 'E')))
    match parseUnsigned m, parseExpPart e with
    | some q, some z => some (q * (10 : ℚ) ^ z)
    | _, _ => none
  else parseUnsigned l

/-- Python `float(s)` on an already-stripped string, over exact rationals:
optional sign, then digits with an optional single dot and optional decimal
exponent.  `inf`/`nan`/underscores are not modelled. -/
def parseDecimal : List Char → Option ℚ
  | '+' :: rest => parseMantExp rest
  | '-' :: rest => Option.map Neg.neg (parseMantExp rest)
  | l => parseMantExp l

/-- `re.search(r"([\d.]+)" ++ sep ++ r"([\d.]+)", s)`: finds the leftmost
maximal `[\d.]` run that is immediately followed by `sep` and then by at least
one further `[\d.]` character, returning the two captured (greedy) groups.
Implemented with fuel (one character is consumed per step, so `l.length`
suffices) to keep the definition structurally recursive and computable. -/
def searchPatAux (sep : Char) : ℕ → List Char → Option (List Char × List Char)
  | 0, _ => none
  | _ + 1, [] => none
  | fuel + 1, c :: rest =>
    if isDigitDot c then
      match List.dropWhile isDigitDot (c :: rest) with
      | [] => none
      | d :: rest3 =>
        if d = sep then
          if List.takeWhile isDigitDot rest3 = [] then searchPatAux sep fuel rest3
          else some (List.takeWhile isDigitDot (c :: rest), List.takeWhile isDigitDot rest3)
        else searchPatAux sep fuel rest3
    else searchPatAux sep fuel rest

/-- Regex search for the two-group pattern around `sep` (`'±'` or `'-'`). -/
def searchPat (sep : Char) (l : List Char) : Option (List Char × List Char) :=
  searchPatAux sep l.length l

/-- The `±`-tolerance block of `auto_judge` (app.py lines 280-289): guarded by
`"±" in criteria`, searches `([\d.]+)±([\d.]+)`, converts both groups with
`float` (a failure raises, which the caller's `except` turns into `""`), and
compares `base - tolerance <= result_value <= base + tolerance`. -/
def tolBranch (rv : ℚ) (c : List Char) : BranchOut :=
  if c.contains '±' then
    match searchPat '±' c with
    | some (g1, g2) =>
      match parseUnsigned g1, parseUnsigned g2 with
      | some base, some tol =>
        BranchOut.decided
          (if base - tol ≤ rv ∧ rv ≤ base + tol then Verdict.pass else Verdict.fail)
      | _, _ => BranchOut.raised
    | none => BranchOut.skipped
  else BranchOut.skipped

/-- The range block of `auto_judge` (app.py lines 292-301): guarded by
`"-" in criteria`, searches `([\d.]+)-([\d.]+)` and compares
`min_val <= result_value <= max_val`. -/
def rangeBranch (rv : ℚ) (c : List Char) : BranchOut :=
  if c.contains '-' then
    match searchPat '-' c with
    | some (g1, g2) =>
      match parseUnsigned g1, parseUnsigned g2 with
      | some lo, some hi =>
        BranchOut.decided (if lo ≤ rv ∧ rv ≤ hi then Verdict.pass else Verdict.fail)
      | _, _ => BranchOut.raised
    | none => BranchOut.skipped
  else BranchOut.skipped

/-- `auto_judge(item_no, result, criteria)` from app.py lines 258-306.
Empty result → no verdict; items 1 and 6 compare the stripped, upper-cased
result with `OK`/`NG`; items 2-5 parse the result as a number (comma
normalized to dot), then try the `±` block and, only if it fell through
without raising, the range block; everything else is `""` (indet). -/
def auto_judge (item_no : ℕ) (result criteria : String) : Verdict :=
  if result.data = [] then Verdict.indet
  else
    if item_no = 1 ∨ item_no = 6 then
      if toUpperL (stripL result.data) = "OK".data then Verdict.pass
      else if toUpperL (stripL result.data) = "NG".data then Verdict.fail
      else Verdict.indet
    else
      match parseDecimal (commaNorm (stripL result.data)) with
      | none => Verdict.indet
      | some rv =>
        match tolBranch rv criteria.data with
        | BranchOut.decided v => v
        | BranchOut.raised => Verdict.indet
        | BranchOut.skipped =>
          match rangeBranch rv criteria.data with
          | BranchOut.decided v => v
          | BranchOut.raised => Verdict.indet
          | BranchOut.skipped => Verdict.indet

/-- `auto_judge` with the range block deleted: what the judge would return if
the verdict were determined by the `±` block alone. -/
def judgeTolOnly (item_no : ℕ) (result criteria : String) : Verdict :=
  if result.data = [] then Verdict.indet
  else
    if item_no = 1 ∨ item_no = 6 then
      if toUpperL (stripL result.data) = "OK".data then Verdict.pass
      else if toUpperL (stripL result.data) = "NG".data then Verdict.fail
      else Verdict.indet
    else
      match parseDecimal (commaNorm (stripL result.data)) with
      | none => Verdict.indet
      | some rv =>
        match tolBranch rv criteria.data with
        | BranchOut.decided v => v
        | BranchOut.raised => Verdict.indet
        | BranchOut.skipped => Verdict.indet

/-- One entry of a part's `required_products` list. -/
structure RequiredProduct where
  product_id : String
  product_name : String
  notes : String
deriving DecidableEq

/-- A catalog entry (the dictionaries stored in `data.json`'s "parts" array).
`image_file` is `none` for Python `None`. -/
structure PartData where
  id : String
  name : String
  category : String
  item_type : String
  inspection_items : List String
  cautions : List String
  storage : String
  image_description : String
  image_file : Option String
  required_products : List RequiredProduct
deriving DecidableEq

/-- One CSV data row, reduced to the three fields the importer reads at fixed
column positions (`row.iloc[1..3]`), after `str(...)` conversion, with
missing/NaN cells already mapped to `""` (`pd.notna` test). -/
structure CsvRow where
  itemType : String
  drawingNumber : String
  partName : String
deriving DecidableEq

/-- `str.strip()` on a `String`. -/
def pstrip (s : String) : String :=
  ⟨stripL s.data⟩

/-- Python `drawing_number.replace("【R】", "")`: removes every occurrence of
the token, scanning left to right without overlap. -/
def removeRevTokenL : List Char → List Char
  | '【' :: 'R' :: '】' :: rest => removeRevTokenL rest
  | c :: rest => c :: removeRevTokenL rest
  | [] => []

/-- `replace("【R】", "")` on a `String`. -/
def removeRevToken (s : String) : String :=
  ⟨removeRevTokenL s.data⟩

/-- `extract_product_from_drawing_number` from app.py lines 132-144: remove
`【R】`, strip, and take the part before the first hyphen (`split("-")[0]`),
or the whole string when it has no hyphen. -/
def extract_product_from_drawing_number (drawing_number : String) : String :=
  let clean_number := pstrip (removeRevToken drawing_number)
  if clean_number.data.contains '-' then
    ⟨clean_number.data.takeWhile (fun c => !(c = '-'))⟩
  else clean_number

/-- The part record built for one part row (app.py lines 176-203): id is the
cleaned drawing number, placeholder fields, and a single required-product
entry exactly when both the extracted product id and the current product name
are non-empty (Python truthiness of both). -/
def csvPartData (item_type drawing_number part_name : String)
    (current_product_name : Option String) : PartData where
  id := pstrip (removeRevToken drawing_number)
  name := part_name
  category := "未設定"
  item_type := item_type
  inspection_items := ["未設定"]
  cautions := ["未設定"]
  storage := "未設定"
  image_description := "検査箇所"
  image_file := none
  required_products :=
    match current_product_name with
    | some c =>
      if extract_product_from_drawing_number drawing_number ≠ "" ∧ c ≠ "" then
        [⟨extract_product_from_drawing_number drawing_number, c, ""⟩]
      else []
    | none => []

/-- The row loop of `parse_csv_file` (app.py lines 162-203), carrying
`current_product_name` (initially Python `None`).  A row whose (stripped)
item type is non-empty and whose drawing number and part name are empty or
the string "nan" is a category marker; a row with all three populated (and
not "nan") emits one part record; all other rows are skipped. -/
def parseCsvGo : Option String → List CsvRow → List PartData
  | _, [] => []
  | current, r :: rest =>
    if pstrip r.itemType ≠ "" ∧
        (pstrip r.drawingNumber = "" ∨ pstrip r.drawingNumber = "nan") ∧
        (pstrip r.partName = "" ∨ pstrip r.partName = "nan") then
      parseCsvGo (some (pstrip r.itemType)) rest
    else if pstrip r.itemType ≠ "" ∧ pstrip r.drawingNumber ≠ "" ∧
        pstrip r.partName ≠ "" ∧ pstrip r.drawingNumber ≠ "nan" ∧
        pstrip r.partName ≠ "nan" then
      csvPartData (pstrip r.itemType) (pstrip r.drawingNumber) (pstrip r.partName) current
        :: parseCsvGo current rest
    else parseCsvGo current rest

/-- `parse_csv_file` on the data rows (header already discarded). -/
def parse_csv_file (rows : List CsvRow) : List PartData :=
  parseCsvGo none rows

/-- The example row sequence of the spec (§8) and of claim C5. -/
def c5rows : List CsvRow :=
  [⟨"P1", "", ""⟩, ⟨"2", "D1-01", "PartA"⟩, ⟨"2", "D2-02", "PartB"⟩,
   ⟨"P2", "", ""⟩, ⟨"2", "D3-03", "PartC"⟩]

/-- Modelled from the spec: claim C6 says the id is derived "by stripping a
leading bracketed revision marker token (literal 【R】) and surrounding
whitespace" — so only a LEADING token is removed.  This definition follows the
spec's words, for comparison with the code's `replace`-all behaviour. -/
def specLeadingClean (dn : String) : String :=
  match stripL dn.data with
  | '【' :: 'R' :: '】' :: rest => pstrip ⟨rest⟩
  | l => ⟨l⟩

/-- `check_duplicates` (app.py lines 208-222): split the drafts, in input
order, into those whose id is absent from the existing catalog
(`unique_parts`, first component) and those whose id already occurs
(`duplicates`, second component); comparison is exact string equality. -/
def check_duplicates (parts_to_import existing_parts : List PartData) :
    List PartData × List PartData :=
  (parts_to_import.filter (fun p => !((existing_parts.map PartData.id).contains p.id)),
   parts_to_import.filter (fun p => (existing_parts.map PartData.id).contains p.id))

/-- Assignment `d[k] = v` on an insertion-ordered Python dict, represented as
an association list: replaces the value in place when the key is present and
appends at the end otherwise. -/
def dictInsert (d : List (String × PartData)) (k : String) (v : PartData) :
    List (String × PartData) :=
  if d.any (fun kv => kv.1 == k) then
    d.map (fun kv => if kv.1 == k then (k, v) else kv)
  else d ++ [(k, v)]

/-- A sequence of dict assignments `d[p.id] = p`, left to right: this is both
the dict comprehension `{part["id"]: part for part in existing_parts}` (from
`d = []`) and the two upsert loops of the overwrite branch. -/
def dictUpsertAll (d : List (String × PartData)) (ps : List PartData) :
    List (String × PartData) :=
  ps.foldl (fun acc p => dictInsert acc p.id p) d

/-- The 5-tuple returned by `import_parts_from_csv`. -/
structure ImportResult where
  parts : List PartData
  success : ℕ
  skip : ℕ
  error : ℕ
  duplicates : List PartData
deriving DecidableEq

/-- `import_parts_from_csv` (app.py lines 225-255).  With overwrite the
existing catalog is loaded into a dict keyed by id, every duplicate and then
every unique draft is upserted (success counted per loop iteration), and the
dict's values are returned; otherwise duplicates are skipped and unique
drafts appended.  `error_count` stays 0 on every path. -/
def import_parts_from_csv (parts_to_import existing_parts : List PartData)
    (overwrite_duplicates : Bool) : ImportResult :=
  let ud := check_duplicates parts_to_import existing_parts
  if overwrite_duplicates then
    ⟨(dictUpsertAll (dictUpsertAll (dictUpsertAll [] existing_parts) ud.2) ud.1).map
        Prod.snd,
      ud.2.length + ud.1.length, 0, 0, ud.2⟩
  else
    ⟨existing_parts ++ ud.1, ud.1.length, ud.2.length, 0, ud.2⟩

/-- `save_part` (app.py lines 40-58), restricted to its catalog effect:
append the new record (image handling is file I/O, outside the model). -/
def save_part (parts : List PartData) (new_part : PartData) : List PartData :=
  parts ++ [new_part]

/-- The submission branch of the manual add form (app.py lines 807-855):
missing required fields, a duplicate id, or an empty inspection list abort
with an error message and no write; otherwise the part is appended.  The two
non-id validations are abstracted as the booleans they decide. -/
def add_part_submit (parts : List PartData) (new_part : PartData)
    (required_fields_ok inspection_ok : Bool) : List PartData :=
  if !required_fields_ok then parts
  else if parts.any (fun p => p.id == new_part.id) then parts
  else if !inspection_ok then parts
  else save_part parts new_part

/-- The record that `update_part` actually stores (app.py lines 75-91): with
a new image, `image_file` is set to `f"{updated_data['id']}{ext}"`; without
one, the old record's `image_file` is retained when the updated dict carries
no `image_file` key (`has_image_field = false`). -/
def build_updated (updated_data : PartData) (image_ext : Option String)
    (has_image_field : Bool) (old : PartData) : PartData :=
  match image_ext with
  | some ext => { updated_data with image_file := some (updated_data.id ++ ext) }
  | none =>
    if has_image_field then updated_data
    else { updated_data with image_file := old.image_file }

/-- Replace the first entry whose id matches, or `none` when there is none
(the search loop of app.py lines 66-73). -/
def update_part_list (part_id : String) (f : PartData → PartData) :
    List PartData → Option (List PartData)
  | [] => none
  | p :: rest =>
    if p.id = part_id then some (f p :: rest)
    else Option.map (fun l => p :: l) (update_part_list part_id f rest)

/-- `update_part` (app.py lines 61-93): `none` models `return False` (the
catalog is not written); `some res` models `return True` with `res` the
catalog that is written back. -/
def update_part (parts : List PartData) (part_id : String) (updated_data : PartData)
    (image_ext : Option String) (has_image_field : Bool) : Option (List PartData) :=
  update_part_list part_id (build_updated updated_data image_ext has_image_field) parts

/-- Every value of the dict records its own key (true of all dicts built by
the import, which only ever assign `d[p.id] = p`). -/
def DictConsistent (d : List (String × PartData)) : Prop :=
  ∀ kv ∈ d, (kv.2).id = kv.1

/-- Judgments recorded by the item loop of `show_inspection_form_page`
(app.py lines 1148-1149): each item's judgment is appended only when
non-empty; the input list has one verdict per checklist item, `indet`
standing for the empty judgment. -/
def collectJudgments (js : List Verdict) : List Verdict :=
  js.filter (fun v => decide (v ≠ Verdict.indet))

/-- `all_items_judged = len(all_judgments) == len(inspection_items)`
(app.py line 1157). -/
def allItemsJudged (js : List Verdict) : Bool :=
  decide ((collectJudgments js).length = js.length)

/-- The aggregate verdict (app.py lines 1159-1173): once every item is
judged, Fail iff some item failed, else Pass; otherwise "" (undetermined). -/
def overallJudgment (js : List Verdict) : Verdict :=
  if allItemsJudged js then
    if Verdict.fail ∈ collectJudgments js then Verdict.fail else Verdict.pass
  else Verdict.indet

/-- The PDF button enabling condition, `not button_disabled`
(app.py lines 1188-1193). -/
def exportEnabled (js : List Verdict) (inspector_name : String)
    (part_selected : Bool) : Bool :=
  allItemsJudged js && decide (overallJudgment js = Verdict.pass)
    && decide (inspector_name ≠ "") && part_selected

def exPartA : PartData := ⟨"A", "old", "c", "", [], [], "s", "d", none, []⟩

def exPartA2 : PartData := ⟨"A", "new", "c", "", [], [], "s", "d", none, []⟩

def exPartB : PartData := ⟨"B", "b", "c", "", [], [], "s", "d", none, []⟩

def exOld : PartData := ⟨"A", "n", "c", "", [], [], "s", "d", some "A.png", []⟩

def exUpd : PartData := ⟨"A", "n2", "c2", "", [], [], "s2", "d2", none, []⟩

theorem searchPatAux_mem (sep : Char) :
    ∀ (fuel : ℕ) (l : List Char) (g : List Char × List Char),
      searchPatAux sep fuel l = some g → sep ∈ l := by
  intro fuel
  induction fuel with
  | zero => intro l g h; simp [searchPatAux] at h
  | succ f ih =>
    intro l g h
    match l with
    | [] => simp [searchPatAux] at h
    | c :: rest =>
      rw [searchPatAux] at h
      by_cases hc : isDigitDot c
      · rw [if_pos hc] at h
        cases hdw : List.dropWhile isDigitDot (c :: rest) with
        | nil => rw [hdw] at h; simp at h
        | cons d rest3 =>
          rw [hdw] at h
          dsimp only at h
          have hsub : d :: rest3 ⊆ c :: rest := by
            rw [← hdw]; exact (List.dropWhile_sublist _).subset
          by_cases hd : d = sep
          · exact hsub (hd ▸ List.mem_cons_self d rest3)
          · rw [if_neg hd] at h
            exact hsub (List.mem_cons_of_mem d (ih rest3 g h))
      · rw [if_neg hc] at h
        exact List.mem_cons_of_mem c (ih rest g h)

theorem searchPat_contains (sep : Char) (l : List Char) (g : List Char × List Char)
    (h : searchPat sep l = some g) : l.contains sep = true :=
  List.elem_iff.mpr (searchPatAux_mem sep l.length l g h)

theorem string_data_ne_nil (s : String) (h : s ≠ "") : s.data ≠ [] := by
  intro hd
  apply h
  cases s
  simp only [String.data] at hd
  simp [hd]

/-- C1: for every ordinal not in {1, 6} and every non-empty result string, the
judge normalizes the (stripped) result by replacing ',' with '.' and parses it
as a decimal number, returning Indeterminate on parse failure; with a numeric
result, if the criteria matches the tolerance pattern (digits/dot run, '±',
digits/dot run) with numeric captures the verdict is Pass iff
base - tolerance ≤ result ≤ base + tolerance (inclusive), else Fail; otherwise
if the criteria matches the range pattern (two digit/dot runs separated by a
hyphen) with numeric captures the verdict is Pass iff min ≤ result ≤ max
(inclusive), else Fail. -/
theorem c1_quantitative_judge (n : ℕ) (result criteria : String)
    (hn1 : n ≠ 1) (hn6 : n ≠ 6) (hr : result ≠ "") :
    (parseDecimal (commaNorm (stripL result.data)) = none →
        auto_judge n result criteria = Verdict.indet) ∧
    (∀ rv g1 g2 base tol,
        parseDecimal (commaNorm (stripL result.data)) = some rv →
        searchPat '±' criteria.data = some (g1, g2) →
        parseUnsigned g1 = some base → parseUnsigned g2 = some tol →
        auto_judge n result criteria =
          if base - tol ≤ rv ∧ rv ≤ base + tol then Verdict.pass else Verdict.fail) ∧
    (∀ rv g1 g2 lo hi,
        parseDecimal (commaNorm (stripL result.data)) = some rv →
        searchPat '±' criteria.data = none →
        searchPat '-' criteria.data = some (g1, g2) →
        parseUnsigned g1 = some lo → parseUnsigned g2 = some hi →
        auto_judge n result criteria =
          if lo ≤ rv ∧ rv ≤ hi then Verdict.pass else Verdict.fail) := by
  have hrd : result.data ≠ [] := string_data_ne_nil result hr
  have hne : ¬(n = 1 ∨ n = 6) := by omega
  refine ⟨?_, ?_, ?_⟩
  · intro hp
    simp only [auto_judge, if_neg hrd, if_neg hne, hp]
  · intro rv g1 g2 base tol hp hs h1 h2
    have hc : criteria.data.contains '±' = true := searchPat_contains _ _ _ hs
    simp only [auto_judge, if_neg hrd, if_neg hne, hp]
    simp only [tolBranch, hc, if_true, hs, h1, h2]
  · intro rv g1 g2 lo hi hp hsn hs h1 h2
    have hc : criteria.data.contains '-' = true := searchPat_contains _ _ _ hs
    simp only [auto_judge, if_neg hrd, if_neg hne, hp]
    have ht : tolBranch rv criteria.data = BranchOut.skipped := by
      unfold tolBranch
      cases hcc : criteria.data.contains '±' with
      | false => simp
      | true => simp [hsn]
    rw [ht]
    simp only [rangeBranch, hc, if_true, hs, h1, h2]

/-- Witness for C1: comma-decimal result "100,5" against "100±0.5mm" passes at
the inclusive upper boundary. -/
theorem c1_quantitative_judge_witness :
    auto_judge 2 "100,5" "100±0.5mm" = Verdict.pass := by
  have h := (c1_quantitative_judge 2 "100,5" "100±0.5mm" (by decide) (by decide)
    (by decide)).2.1 (201/2) "100".data "0.5".data 100 (1/2)
    (by decide) (by decide) (by decide) (by decide)
  rw [h]
  decide

/-- C2: for ordinals 1 and 6 the judge returns Indeterminate on an empty or
whitespace-only result, otherwise compares the trimmed result
case-insensitively with the literals OK (Pass) and NG (Fail), anything else
Indeterminate; the criteria string is never consulted for these ordinals. -/
theorem c2_qualitative_judge (n : ℕ) (hn : n = 1 ∨ n = 6) (result criteria : String) :
    (auto_judge n result criteria =
      if result.data = [] then Verdict.indet
      else if toUpperL (stripL result.data) = "OK".data then Verdict.pass
      else if toUpperL (stripL result.data) = "NG".data then Verdict.fail
      else Verdict.indet) ∧
    (stripL result.data = [] → auto_judge n result criteria = Verdict.indet) ∧
    (∀ criteria2, auto_judge n result criteria = auto_judge n result criteria2) := by
  refine ⟨?_, ?_, ?_⟩
  · by_cases hd : result.data = []
    · simp only [auto_judge, if_pos hd]
    · simp only [auto_judge, if_neg hd, if_pos hn]
  · intro hstrip
    by_cases hd : result.data = []
    · simp only [auto_judge, if_pos hd]
    · simp only [auto_judge, if_neg hd, if_pos hn, hstrip]
      decide
  · intro criteria2
    by_cases hd : result.data = []
    · simp only [auto_judge, if_pos hd]
    · simp only [auto_judge, if_neg hd, if_pos hn]

/-- Witness for C2: "ok" passes, "NG" fails, "maybe" and "" are indeterminate,
and the criteria string is irrelevant, at both ordinals 1 and 6. -/
theorem c2_qualitative_judge_witness :
    auto_judge 1 "ok" "whatever" = Verdict.pass ∧
    auto_judge 6 "NG" "100±0.5" = Verdict.fail ∧
    auto_judge 1 "maybe" "x" = Verdict.indet ∧
    auto_judge 6 " " "x" = Verdict.indet := by
  refine ⟨?_, ?_, ?_, ?_⟩
  · rw [(c2_qualitative_judge 1 (Or.inl rfl) "ok" "whatever").1]; decide
  · rw [(c2_qualitative_judge 6 (Or.inr rfl) "NG" "100±0.5").1]; decide
  · rw [(c2_qualitative_judge 1 (Or.inl rfl) "maybe" "x").1]; decide
  · exact (c2_qualitative_judge 6 (Or.inr rfl) " " "x").2.1 (by decide)

/-- C3 counterexample: the criteria string "x±y 1-2" contains both '±' and a
hyphen, yet the verdict Pass is produced by the range pattern — with the range
block removed the judge would return Indeterminate, so for this criteria the
verdict is NOT determined by the ± branch alone. -/
theorem c3_counterexample :
    auto_judge 2 "1.5" "x±y 1-2" = Verdict.pass ∧
    judgeTolOnly 2 "1.5" "x±y 1-2" = Verdict.indet ∧
    "x±y 1-2".data.contains '±' = true ∧
    "x±y 1-2".data.contains '-' = true := by
  exact ⟨by decide, by decide, by decide, by decide⟩

/-- C3 amended: for ordinals 2-5 and a criteria string that contains a hyphen
and MATCHES the tolerance pattern (rather than merely containing '±'), the
verdict is determined by the ± branch alone — it equals the judge with the
range block removed, so the range pattern is never consulted. -/
theorem c3_tolerance_priority (n : ℕ) (result criteria : String)
    (hn : 2 ≤ n ∧ n ≤ 5)
    (hdash : criteria.data.contains '-' = true)
    (g1 g2 : List Char) (hs : searchPat '±' criteria.data = some (g1, g2)) :
    auto_judge n result criteria = judgeTolOnly n result criteria := by
  have hne : ¬(n = 1 ∨ n = 6) := by omega
  have hc : criteria.data.contains '±' = true := searchPat_contains _ _ _ hs
  by_cases hd : result.data = []
  · simp only [auto_judge, judgeTolOnly, if_pos hd]
  · cases hp : parseDecimal (commaNorm (stripL result.data)) with
    | none => simp only [auto_judge, judgeTolOnly, if_neg hd, if_neg hne, hp]
    | some rv =>
      cases ht : tolBranch rv criteria.data with
      | decided v => simp only [auto_judge, judgeTolOnly, if_neg hd, if_neg hne, hp, ht]
      | raised => simp only [auto_judge, judgeTolOnly, if_neg hd, if_neg hne, hp, ht]
      | skipped =>
        exfalso
        rw [tolBranch, if_pos hc, hs] at ht
        dsimp only at ht
        cases h1 : parseUnsigned g1 with
        | none => rw [h1] at ht; cases h2 : parseUnsigned g2 <;> simp [h2] at ht
        | some b => rw [h1] at ht; cases h2 : parseUnsigned g2 <;> simp [h2] at ht

/-- Witness for C3 (amended): criteria "100±0.5 1-2" has both a matching
tolerance pattern and a hyphen; the judge agrees with the ±-only judge. -/
theorem c3_tolerance_priority_witness :
    auto_judge 2 "1" "100±0.5 1-2" = judgeTolOnly 2 "1" "100±0.5 1-2" :=
  c3_tolerance_priority 2 "1" "100±0.5 1-2" ⟨by decide, by decide⟩ (by decide)
    "100".data "0.5".data (by decide)

/-- C4: the judge always returns one of the three verdicts (never an error),
and for a numeric result whose criteria contains '±' or '-' but where neither
block produces a verdict (the regex does not match, or a captured group is not
a number so `float` raises), the verdict is Indeterminate. -/
theorem c4_judge_total_silent (n : ℕ) (result criteria : String) :
    (auto_judge n result criteria = Verdict.pass ∨
      auto_judge n result criteria = Verdict.fail ∨
      auto_judge n result criteria = Verdict.indet) ∧
    (∀ rv, n ≠ 1 → n ≠ 6 → result ≠ "" →
      parseDecimal (commaNorm (stripL result.data)) = some rv →
      (criteria.data.contains '±' = true ∨ criteria.data.contains '-' = true) →
      (∀ v, tolBranch rv criteria.data ≠ BranchOut.decided v) →
      (∀ v, rangeBranch rv criteria.data ≠ BranchOut.decided v) →
      auto_judge n result criteria = Verdict.indet) := by
  constructor
  · cases auto_judge n result criteria
    · exact Or.inl rfl
    · exact Or.inr (Or.inl rfl)
    · exact Or.inr (Or.inr rfl)
  · intro rv hn1 hn6 hr hp _hcon htol hrange
    have hrd : result.data ≠ [] := string_data_ne_nil result hr
    have hne : ¬(n = 1 ∨ n = 6) := by omega
    cases ht : tolBranch rv criteria.data with
    | decided v => exact absurd ht (htol v)
    | raised => simp only [auto_judge, if_neg hrd, if_neg hne, hp, ht]
    | skipped =>
      cases hg : rangeBranch rv criteria.data with
      | decided v => exact absurd hg (hrange v)
      | raised => simp only [auto_judge, if_neg hrd, if_neg hne, hp, ht, hg]
      | skipped => simp only [auto_judge, if_neg hrd, if_neg hne, hp, ht, hg]

/-- Witness for C4: criteria "a±b-c" contains both separators but neither
pattern matches, so the verdict of the numeric result "5" is Indeterminate. -/
theorem c4_judge_total_silent_witness :
    auto_judge 2 "5" "a±b-c" = Verdict.indet :=
  (c4_judge_total_silent 2 "5" "a±b-c").2 5 (by decide) (by decide) (by decide)
    (by decide) (Or.inl (by decide)) (by decide) (by decide)

/-- C5 counterexample: on the claim's example row sequence the second draft
(id "D2-02") is attributed to product id "D2" — the prefix of its own drawing
number — and not to "D1" as the claim asserts for "the first two" drafts. -/
theorem c5_counterexample :
    (parse_csv_file c5rows).map
        (fun p => (p.id, p.required_products.map (fun q => (q.product_id, q.product_name)))) =
      [("D1-01", [("D1", "P1")]), ("D2-02", [("D2", "P1")]), ("D3-03", [("D3", "P2")])] ∧
    ("D2" : String) ≠ "D1" :=
  ⟨by decide, by decide⟩

/-- C5 amended: rows are processed top to bottom; a row with non-empty trimmed
itemType and empty drawingNumber and partName sets the current category and
produces no draft; a row with all three non-empty produces exactly one draft
attributed to the most recently seen category marker (required_products is
empty when no marker has been seen); every other row shape produces no draft;
and the example sequence yields exactly three drafts with ids D1-01, D2-02,
D3-03, attributed to product D1 named P1, D2 named P1, and D3 named P2
respectively.  (Rows whose cells are the literal string "nan" — which pandas
would have turned into NaN, hence "" — are excluded by hypothesis.) -/
theorem c5_importer_rows (current : Option String) (r : CsvRow) (rest : List CsvRow)
    (hdn : pstrip r.drawingNumber ≠ "nan") (hpn : pstrip r.partName ≠ "nan") :
    (pstrip r.itemType ≠ "" → pstrip r.drawingNumber = "" → pstrip r.partName = "" →
      parseCsvGo current (r :: rest) = parseCsvGo (some (pstrip r.itemType)) rest) ∧
    (pstrip r.itemType ≠ "" → pstrip r.drawingNumber ≠ "" → pstrip r.partName ≠ "" →
      parseCsvGo current (r :: rest) =
        csvPartData (pstrip r.itemType) (pstrip r.drawingNumber) (pstrip r.partName) current
          :: parseCsvGo current rest) ∧
    (¬(pstrip r.itemType ≠ "" ∧ pstrip r.drawingNumber = "" ∧ pstrip r.partName = "") →
      ¬(pstrip r.itemType ≠ "" ∧ pstrip r.drawingNumber ≠ "" ∧ pstrip r.partName ≠ "") →
      parseCsvGo current (r :: rest) = parseCsvGo current rest) ∧
    (∀ it dn pn, (csvPartData it dn pn none).required_products = []) ∧
    (parse_csv_file c5rows).map
        (fun p => (p.id, p.required_products.map (fun q => (q.product_id, q.product_name)))) =
      [("D1-01", [("D1", "P1")]), ("D2-02", [("D2", "P1")]), ("D3-03", [("D3", "P2")])] := by
  refine ⟨?_, ?_, ?_, ?_, by decide⟩
  · intro h1 h2 h3
    rw [parseCsvGo, if_pos ⟨h1, Or.inl h2, Or.inl h3⟩]
  · intro h1 h2 h3
    rw [parseCsvGo, if_neg (fun hmk => hmk.2.1.elim h2 hdn),
      if_pos ⟨h1, h2, h3, hdn, hpn⟩]
  · intro hmk hpart
    have hc1 : ¬(pstrip r.itemType ≠ "" ∧
        (pstrip r.drawingNumber = "" ∨ pstrip r.drawingNumber = "nan") ∧
        (pstrip r.partName = "" ∨ pstrip r.partName = "nan")) := by
      rintro ⟨h1, hor2, hor3⟩
      exact hmk ⟨h1, hor2.resolve_right hdn, hor3.resolve_right hpn⟩
    have hc2 : ¬(pstrip r.itemType ≠ "" ∧ pstrip r.drawingNumber ≠ "" ∧
        pstrip r.partName ≠ "" ∧ pstrip r.drawingNumber ≠ "nan" ∧
        pstrip r.partName ≠ "nan") := by
      rintro ⟨h1, h2, h3, _, _⟩
      exact hpart ⟨h1, h2, h3⟩
    rw [parseCsvGo, if_neg hc1, if_neg hc2]
  · intro it dn pn
    rfl

/-- Witness for C5: the first example row is a category marker. -/
theorem c5_importer_rows_witness :
    parseCsvGo none [⟨"P1", "", ""⟩, ⟨"2", "D1-01", "PartA"⟩] =
      parseCsvGo (some (pstrip "P1")) [⟨"2", "D1-01", "PartA"⟩] :=
  (c5_importer_rows none ⟨"P1", "", ""⟩ [⟨"2", "D1-01", "PartA"⟩]
    (by decide) (by decide)).1 (by decide) (by decide) (by decide)

/-- C6 counterexample: for drawing number "A【R】B" the code removes the
embedded occurrence of 【R】 and produces the id "AB", whereas stripping only
a leading token (the claim's wording) leaves "A【R】B" unchanged. -/
theorem c6_counterexample :
    (parse_csv_file [⟨"2", "A【R】B", "X"⟩]).map PartData.id = ["AB"] ∧
    specLeadingClean "A【R】B" = "A【R】B" ∧
    ("AB" : String) ≠ "A【R】B" :=
  ⟨by decide, by decide, by decide⟩

theorem dropWhile_head_false {α : Type} (p : α → Bool) :
    ∀ (l : List α) (x : α) (xs : List α), l.dropWhile p = x :: xs → p x = false := by
  intro l
  induction l with
  | nil => intro x xs h; simp [List.dropWhile] at h
  | cons c rest ih =>
    intro x xs h
    by_cases hc : p c
    · rw [List.dropWhile_cons_of_pos hc] at h
      exact ih x xs h
    · rw [List.dropWhile_cons_of_neg hc] at h
      cases h
      simpa using hc

/-- C6 amended: the draft's id is the drawing number with EVERY occurrence of
the literal token 【R】 removed (left to right, non-overlapping) and
surrounding whitespace stripped; the product id is the prefix of that cleaned
id up to (not including) its first hyphen — the whole cleaned id when it
contains none — and required_products holds the single entry
{product id, current category, ""} exactly when both the product id and the
current category name are non-empty, and is empty otherwise. -/
theorem c6_id_product_derivation (it dn pn : String) (current : Option String) :
    (csvPartData it dn pn current).id = pstrip (removeRevToken dn) ∧
    ('-' ∉ (extract_product_from_drawing_number dn).data) ∧
    (∃ rest, (pstrip (removeRevToken dn)).data =
        (extract_product_from_drawing_number dn).data ++ rest ∧
      (rest = [] ∨ ∃ t, rest = '-' :: t)) ∧
    (∀ c, current = some c → extract_product_from_drawing_number dn ≠ "" → c ≠ "" →
      (csvPartData it dn pn current).required_products =
        [⟨extract_product_from_drawing_number dn, c, ""⟩]) ∧
    ((csvPartData it dn pn current).required_products ≠ [] →
      extract_product_from_drawing_number dn ≠ "" ∧ ∃ c, current = some c ∧ c ≠ "") := by
  refine ⟨rfl, ?_, ?_, ?_, ?_⟩
  · by_cases hcon : (pstrip (removeRevToken dn)).data.contains '-'
    · simp only [extract_product_from_drawing_number, if_pos hcon]
      intro hmem
      have := List.mem_takeWhile_imp hmem
      simp at this
    · simp only [extract_product_from_drawing_number, if_neg hcon]
      intro hmem
      exact hcon (List.elem_iff.mpr hmem)
  · by_cases hcon : (pstrip (removeRevToken dn)).data.contains '-'
    · simp only [extract_product_from_drawing_number, if_pos hcon]
      refine ⟨(pstrip (removeRevToken dn)).data.dropWhile (fun c => !(c = '-')), ?_, ?_⟩
      · exact (List.takeWhile_append_dropWhile _ _).symm
      · cases hdw : (pstrip (removeRevToken dn)).data.dropWhile (fun c => !(c = '-')) with
        | nil => exact Or.inl rfl
        | cons x xs =>
          refine Or.inr ⟨xs, ?_⟩
          have := dropWhile_head_false _ _ _ _ hdw
          simp at this
          rw [this]
    · simp only [extract_product_from_drawing_number, if_neg hcon]
      exact ⟨[], by simp, Or.inl rfl⟩
  · intro c hc hpid hcne
    subst hc
    simp only [csvPartData, if_pos (And.intro hpid hcne)]
  · intro hne
    cases hcur : current with
    | none => subst hcur; simp [csvPartData] at hne
    | some c =>
      subst hcur
      by_cases hco : extract_product_from_drawing_number dn ≠ "" ∧ c ≠ ""
      · exact ⟨hco.1, c, rfl, hco.2⟩
      · exfalso
        apply hne
        simp only [csvPartData, if_neg hco]

/-- Witness for C6 (amended): the draft for drawing number "【R】TUA60-BB"
under current category "P" carries the single required-product entry. -/
theorem c6_id_product_derivation_witness :
    (csvPartData "2" "【R】TUA60-BB" "x" (some "P")).required_products =
      [⟨extract_product_from_drawing_number "【R】TUA60-BB", "P", ""⟩] :=
  (c6_id_product_derivation "2" "【R】TUA60-BB" "x" (some "P")).2.2.2.1 "P" rfl
    (by decide) (by decide)

theorem dictInsert_mem_self (d : List (String × PartData)) (k : String) (v : PartData) :
    (k, v) ∈ dictInsert d k v := by
  unfold dictInsert
  by_cases h : d.any (fun kv => kv.1 == k)
  · rw [if_pos h]
    obtain ⟨kv, hkv, hbeq⟩ := List.any_eq_true.mp h
    exact List.mem_map.mpr ⟨kv, hkv, by rw [if_pos hbeq]⟩
  · rw [if_neg h]
    exact List.mem_append_right _ (List.mem_singleton.mpr rfl)

theorem dictInsert_mem_ne (d : List (String × PartData)) (k : String) (v : PartData)
    (k' : String) (v' : PartData) (h : (k, v) ∈ d) (hk : k ≠ k') :
    (k, v) ∈ dictInsert d k' v' := by
  unfold dictInsert
  by_cases ha : d.any (fun kv => kv.1 == k')
  · rw [if_pos ha]
    exact List.mem_map.mpr ⟨(k, v), h, by rw [if_neg (by simpa using hk)]⟩
  · rw [if_neg ha]
    exact List.mem_append_left _ h

theorem dictInsert_keys_nodup (d : List (String × PartData)) (k : String) (v : PartData)
    (h : (d.map Prod.fst).Nodup) : ((dictInsert d k v).map Prod.fst).Nodup := by
  unfold dictInsert
  by_cases ha : d.any (fun kv => kv.1 == k)
  · rw [if_pos ha]
    have hkeys : (d.map (fun kv => if kv.1 == k then (k, v) else kv)).map Prod.fst
        = d.map Prod.fst := by
      rw [List.map_map]
      apply List.map_congr_left
      intro kv _
      by_cases hb : (kv.1 == k) = true
      · simp only [Function.comp_apply, if_pos hb]
        exact (eq_of_beq hb).symm
      · simp only [Function.comp_apply, if_neg hb]
    rw [hkeys]
    exact h
  · rw [if_neg ha, List.map_append]
    refine List.Nodup.append h (List.nodup_singleton k) ?_
    intro a hain hak
    rcases List.mem_map.mp hain with ⟨kv, hkv, hfst⟩
    rcases List.mem_singleton.mp hak with rfl
    have := List.any_eq_false.mp (Bool.of_not_eq_true ha) kv hkv
    simp only [beq_iff_eq] at this
    exact this (by rw [← hfst])

theorem dictInsert_consistent (d : List (String × PartData)) (k : String) (v : PartData)
    (h : DictConsistent d) (hv : v.id = k) : DictConsistent (dictInsert d k v) := by
  unfold dictInsert
  by_cases ha : d.any (fun kv => kv.1 == k)
  · rw [if_pos ha]
    intro kv hkv
    rcases List.mem_map.mp hkv with ⟨kv0, hkv0, heq⟩
    by_cases hb : (kv0.1 == k) = true
    · rw [if_pos hb] at heq
      rw [← heq]
      exact hv
    · rw [if_neg hb] at heq
      rw [← heq]
      exact h kv0 hkv0
  · rw [if_neg ha]
    intro kv hkv
    rcases List.mem_append.mp hkv with hin | hone
    · exact h kv hin
    · rcases List.mem_singleton.mp hone with rfl
      exact hv

theorem dictUpsertAll_cons (d : List (String × PartData)) (p : PartData)
    (ps : List PartData) :
    dictUpsertAll d (p :: ps) = dictUpsertAll (dictInsert d p.id p) ps := rfl

theorem dictUpsertAll_keys_nodup (ps : List PartData) :
    ∀ d, (d.map Prod.fst).Nodup → ((dictUpsertAll d ps).map Prod.fst).Nodup := by
  induction ps with
  | nil => intro d h; exact h
  | cons p ps ih =>
    intro d h
    rw [dictUpsertAll_cons]
    exact ih _ (dictInsert_keys_nodup d p.id p h)

theorem dictUpsertAll_consistent (ps : List PartData) :
    ∀ d, DictConsistent d → DictConsistent (dictUpsertAll d ps) := by
  induction ps with
  | nil => intro d h; exact h
  | cons p ps ih =>
    intro d h
    rw [dictUpsertAll_cons]
    exact ih _ (dictInsert_consistent d p.id p h rfl)

theorem dictUpsertAll_mem_ne (ps : List PartData) :
    ∀ d (k : String) (v : PartData), (k, v) ∈ d → (∀ p ∈ ps, p.id ≠ k) →
      (k, v) ∈ dictUpsertAll d ps := by
  induction ps with
  | nil => intro d k v h _; exact h
  | cons p ps ih =>
    intro d k v h hne
    rw [dictUpsertAll_cons]
    refine ih _ k v ?_ (fun x hx => hne x (List.mem_cons_of_mem p hx))
    exact dictInsert_mem_ne d k v p.id p h
      (fun hkp => hne p (List.mem_cons_self p ps) hkp.symm)

theorem dictUpsertAll_mem_self (ps : List PartData) :
    ∀ d (p : PartData), p ∈ ps → (ps.map PartData.id).Nodup →
      (p.id, p) ∈ dictUpsertAll d ps := by
  induction ps with
  | nil => intro d p h; exact absurd h (List.not_mem_nil p)
  | cons q ps ih =>
    intro d p hp hnd
    rw [dictUpsertAll_cons]
    have hnd' : (ps.map PartData.id).Nodup := (List.nodup_cons.mp hnd).2
    rcases List.mem_cons.mp hp with rfl | hp'
    · refine dictUpsertAll_mem_ne ps _ p.id p (dictInsert_mem_self d p.id p) ?_
      intro x hx hxid
      exact (List.nodup_cons.mp hnd).1 (hxid ▸ List.mem_map_of_mem PartData.id hx)
    · exact ih _ p hp' hnd'

theorem dict_values_ids_eq_keys (d : List (String × PartData)) (h : DictConsistent d) :
    (d.map Prod.snd).map PartData.id = d.map Prod.fst := by
  rw [List.map_map]
  exact List.map_congr_left h

theorem check_duplicates_subset_left (ti ex : List PartData) :
    ∀ q ∈ (check_duplicates ti ex).1,
      q ∈ ti ∧ ((ex.map PartData.id).contains q.id) = false := by
  intro q hq
  have h := List.mem_filter.mp hq
  exact ⟨h.1, by simpa using h.2⟩

theorem check_duplicates_subset_right (ti ex : List PartData) :
    ∀ q ∈ (check_duplicates ti ex).2,
      q ∈ ti ∧ ((ex.map PartData.id).contains q.id) = true := by
  intro q hq
  exact ⟨(List.mem_filter.mp hq).1, (List.mem_filter.mp hq).2⟩

theorem check_duplicates_cover (ti ex : List PartData) (q : PartData) (hq : q ∈ ti) :
    q ∈ (check_duplicates ti ex).1 ∨ q ∈ (check_duplicates ti ex).2 := by
  by_cases hc : ((ex.map PartData.id).contains q.id) = true
  · exact Or.inr (List.mem_filter.mpr ⟨hq, hc⟩)
  · exact Or.inl (List.mem_filter.mpr ⟨hq, by simpa using hc⟩)

theorem check_duplicates_nodup (ti ex : List PartData)
    (him : (ti.map PartData.id).Nodup) :
    ((check_duplicates ti ex).1.map PartData.id).Nodup ∧
    ((check_duplicates ti ex).2.map PartData.id).Nodup :=
  ⟨him.sublist ((ti.filter_sublist).map PartData.id),
   him.sublist ((ti.filter_sublist).map PartData.id)⟩

theorem unique_id_ne_dup_id (ti ex : List PartData) (u q : PartData)
    (hu : u ∈ (check_duplicates ti ex).1) (hq : q ∈ (check_duplicates ti ex).2) :
    u.id ≠ q.id := by
  have h1 := (check_duplicates_subset_left ti ex u hu).2
  have h2 := (check_duplicates_subset_right ti ex q hq).2
  intro he
  rw [he, h2] at h1
  cases h1

theorem dictInsert_mem_inv (d : List (String × PartData)) (k : String) (v : PartData)
    (kv : String × PartData) (h : kv ∈ dictInsert d k v) :
    (kv ∈ d ∧ kv.1 ≠ k) ∨ kv = (k, v) := by
  unfold dictInsert at h
  by_cases ha : d.any (fun kv => kv.1 == k)
  · rw [if_pos ha] at h
    rcases List.mem_map.mp h with ⟨kv0, hkv0, heq⟩
    by_cases hb : (kv0.1 == k) = true
    · rw [if_pos hb] at heq
      exact Or.inr heq.symm
    · rw [if_neg hb] at heq
      refine Or.inl ⟨heq ▸ hkv0, ?_⟩
      rw [← heq]
      simpa using hb
  · rw [if_neg ha] at h
    rcases List.mem_append.mp h with hin | hone
    · refine Or.inl ⟨hin, ?_⟩
      have hf := List.any_eq_false.mp (Bool.of_not_eq_true ha) kv hin
      simpa using hf
    · exact Or.inr (List.mem_singleton.mp hone)

theorem dictUpsertAll_mem_inv (ps : List PartData) :
    ∀ (d : List (String × PartData)) (kv : String × PartData),
      kv ∈ dictUpsertAll d ps →
      (kv ∈ d ∧ kv.1 ∉ ps.map PartData.id) ∨ kv.2 ∈ ps := by
  induction ps with
  | nil => intro d kv h; exact Or.inl ⟨h, List.not_mem_nil _⟩
  | cons p ps ih =>
    intro d kv h
    rw [dictUpsertAll_cons] at h
    rcases ih _ kv h with ⟨hin, hnot⟩ | hmem
    · rcases dictInsert_mem_inv d p.id p kv hin with ⟨hd, hne⟩ | heq
      · refine Or.inl ⟨hd, ?_⟩
        simp only [List.map_cons, List.mem_cons]
        rintro (h1 | h2)
        · exact hne h1
        · exact hnot h2
      · refine Or.inr ?_
        rw [heq]
        exact List.mem_cons_self p ps
    · exact Or.inr (List.mem_cons_of_mem p hmem)

/-- C7 counterexample: the claim quantifies over every draft list, but for a
draft list that repeats an id the overwrite merge does NOT append all unique
drafts: importing the two drafts with id "X" into the empty catalog with
overwrite=true keeps only the last one (key-based upsert), while
successCount still counts both. -/
theorem c7_counterexample :
    (import_parts_from_csv
        [⟨"X", "one", "c", "", [], [], "s", "d", none, []⟩,
         ⟨"X", "two", "c", "", [], [], "s", "d", none, []⟩] [] true).parts =
      [⟨"X", "two", "c", "", [], [], "s", "d", none, []⟩] ∧
    ⟨"X", "one", "c", "", [], [], "s", "d", none, []⟩ ∉
      (import_parts_from_csv
        [⟨"X", "one", "c", "", [], [], "s", "d", none, []⟩,
         ⟨"X", "two", "c", "", [], [], "s", "d", none, []⟩] [] true).parts ∧
    (import_parts_from_csv
        [⟨"X", "one", "c", "", [], [], "s", "d", none, []⟩,
         ⟨"X", "two", "c", "", [], [], "s", "d", none, []⟩] [] true).success = 2 :=
  ⟨by decide, by decide, by decide⟩

/-- C7 amended: for an existing catalog and a draft list whose ids are each
pairwise distinct (a CSV can yield repeated draft ids; then only the last
draft per id survives the overwrite merge — see the counterexample):
overwrite=false returns the catalog with only the unique drafts appended,
success = |unique|, skip = |duplicates|; overwrite=true is a key-based
upsert — every draft is in the merged catalog, every merged record is either
one of the drafts or an existing record whose id is absent from the drafts
(so each duplicate really replaces the existing record with the same id and
no stale record survives), the merged ids are pairwise distinct, no existing
record whose id is absent from the drafts is dropped, success =
|duplicates| + |unique| and skip = 0; errorCount = 0 in both modes. -/
theorem c7_merge_import (toImport existing : List PartData)
    (hex : (existing.map PartData.id).Nodup) (him : (toImport.map PartData.id).Nodup) :
    (import_parts_from_csv toImport existing false =
      ⟨existing ++ (check_duplicates toImport existing).1,
        (check_duplicates toImport existing).1.length,
        (check_duplicates toImport existing).2.length, 0,
        (check_duplicates toImport existing).2⟩) ∧
    ((import_parts_from_csv toImport existing true).success =
        (check_duplicates toImport existing).2.length +
          (check_duplicates toImport existing).1.length ∧
      (import_parts_from_csv toImport existing true).skip = 0 ∧
      (import_parts_from_csv toImport existing true).error = 0 ∧
      (import_parts_from_csv toImport existing true).duplicates =
        (check_duplicates toImport existing).2) ∧
    (∀ q ∈ toImport, q ∈ (import_parts_from_csv toImport existing true).parts) ∧
    (∀ p ∈ existing, p.id ∉ toImport.map PartData.id →
      p ∈ (import_parts_from_csv toImport existing true).parts) ∧
    (∀ p ∈ (import_parts_from_csv toImport existing true).parts,
      p ∈ toImport ∨ (p ∈ existing ∧ p.id ∉ toImport.map PartData.id)) ∧
    ((import_parts_from_csv toImport existing true).parts.map PartData.id).Nodup := by
  have hparts : (import_parts_from_csv toImport existing true).parts =
      (dictUpsertAll (dictUpsertAll (dictUpsertAll [] existing)
        (check_duplicates toImport existing).2)
        (check_duplicates toImport existing).1).map Prod.snd := rfl
  have hcons : DictConsistent (dictUpsertAll (dictUpsertAll (dictUpsertAll [] existing)
      (check_duplicates toImport existing).2) (check_duplicates toImport existing).1) :=
    dictUpsertAll_consistent _ _ (dictUpsertAll_consistent _ _
      (dictUpsertAll_consistent _ _ (fun kv hkv => absurd hkv (List.not_mem_nil kv))))
  refine ⟨rfl, ⟨rfl, rfl, rfl, rfl⟩, ?_, ?_, ?_, ?_⟩
  · intro q hq
    rw [hparts]
    rcases check_duplicates_cover toImport existing q hq with hu | hd
    · exact List.mem_map_of_mem Prod.snd
        (dictUpsertAll_mem_self _ _ q hu (check_duplicates_nodup toImport existing him).1)
    · refine List.mem_map_of_mem Prod.snd
        (dictUpsertAll_mem_ne _ _ q.id q
          (dictUpsertAll_mem_self _ _ q hd (check_duplicates_nodup toImport existing him).2)
          ?_)
      intro u hu
      exact unique_id_ne_dup_id toImport existing u q hu hd
  · intro p hp hnotin
    rw [hparts]
    have hne2 : ∀ x ∈ (check_duplicates toImport existing).2, x.id ≠ p.id := by
      intro x hx he
      exact hnotin (he ▸ List.mem_map_of_mem PartData.id
        (check_duplicates_subset_right _ _ x hx).1)
    have hne1 : ∀ x ∈ (check_duplicates toImport existing).1, x.id ≠ p.id := by
      intro x hx he
      exact hnotin (he ▸ List.mem_map_of_mem PartData.id
        (check_duplicates_subset_left _ _ x hx).1)
    exact List.mem_map_of_mem Prod.snd
      (dictUpsertAll_mem_ne _ _ p.id p
        (dictUpsertAll_mem_ne _ _ p.id p (dictUpsertAll_mem_self _ _ p hp hex) hne2) hne1)
  · intro p hp
    rw [hparts] at hp
    rcases List.mem_map.mp hp with ⟨kv, hkv, hsnd⟩
    have hid : kv.2.id = kv.1 := hcons kv hkv
    rcases dictUpsertAll_mem_inv _ _ kv hkv with ⟨h1, hn1⟩ | hu
    · rcases dictUpsertAll_mem_inv _ _ kv h1 with ⟨h0, hn2⟩ | hdp
      · rcases dictUpsertAll_mem_inv _ _ kv h0 with ⟨habs, _⟩ | hex0
        · exact absurd habs (List.not_mem_nil kv)
        · refine Or.inr ⟨hsnd ▸ hex0, ?_⟩
          intro hcontra
          rcases List.mem_map.mp hcontra with ⟨q, hq, hqid⟩
          have hkv1 : q.id = kv.1 := by rw [hqid, ← hsnd, hid]
          rcases check_duplicates_cover toImport existing q hq with hqu | hqd
          · exact hn1 (hkv1 ▸ List.mem_map_of_mem PartData.id hqu)
          · exact hn2 (hkv1 ▸ List.mem_map_of_mem PartData.id hqd)
      · exact Or.inl (hsnd ▸ (check_duplicates_subset_right _ _ _ hdp).1)
    · exact Or.inl (hsnd ▸ (check_duplicates_subset_left _ _ _ hu).1)
  · rw [hparts, dict_values_ids_eq_keys _ hcons]
    exact dictUpsertAll_keys_nodup _ _ (dictUpsertAll_keys_nodup _ _
      (dictUpsertAll_keys_nodup _ _ (by simp)))

theorem build_updated_id (upd : PartData) (ext : Option String) (himg : Bool)
    (old : PartData) : (build_updated upd ext himg old).id = upd.id := by
  unfold build_updated
  cases ext with
  | some e => rfl
  | none => cases himg <;> rfl

theorem update_part_list_map_id (pid : String) (f : PartData → PartData)
    (hf : ∀ q, (f q).id = pid) :
    ∀ (parts res : List PartData), update_part_list pid f parts = some res →
      res.map PartData.id = parts.map PartData.id := by
  intro parts
  induction parts with
  | nil => intro res h; simp [update_part_list] at h
  | cons p rest ih =>
    intro res h
    rw [update_part_list] at h
    by_cases hp : p.id = pid
    · rw [if_pos hp] at h
      cases h
      simp [hf, hp]
    · rw [if_neg hp] at h
      cases hres : update_part_list pid f rest with
      | none => rw [hres] at h; simp at h
      | some res' =>
        rw [hres] at h
        have h' : p :: res' = res := by simpa using h
        subst h'
        simp [ih res' hres]

/-- C8 counterexample: the claim quantifies over draft lists that may repeat
ids; merging the two drafts with id "X" into the empty catalog (whose ids are
trivially pairwise distinct) with overwrite=false appends both, so the
resulting catalog ids are not pairwise distinct. -/
theorem c8_counterexample :
    (([] : List PartData).map PartData.id).Nodup ∧
    ((import_parts_from_csv
        [⟨"X", "one", "c", "", [], [], "s", "d", none, []⟩,
         ⟨"X", "two", "c", "", [], [], "s", "d", none, []⟩] [] false).parts.map
        PartData.id) = ["X", "X"] ∧
    ¬((import_parts_from_csv
        [⟨"X", "one", "c", "", [], [], "s", "d", none, []⟩,
         ⟨"X", "two", "c", "", [], [], "s", "d", none, []⟩] [] false).parts.map
        PartData.id).Nodup :=
  ⟨by decide, by decide, by decide⟩

/-- C8 amended: for a catalog with pairwise distinct ids, uniqueness is
preserved by the add form (which rejects duplicate ids), by update through
the edit form (which keeps the id fixed), by merge with overwrite=true for
EVERY draft list, and by merge with overwrite=false provided the draft list's
own ids are pairwise distinct — the original claim, which allowed repeated
draft ids in that mode too, fails (see the counterexample). -/
theorem c8_unique_ids_preserved (parts : List PartData)
    (hnd : (parts.map PartData.id).Nodup) :
    (∀ p rfok iok, ((add_part_submit parts p rfok iok).map PartData.id).Nodup) ∧
    (∀ pid upd ext himg res, upd.id = pid →
      update_part parts pid upd ext himg = some res →
      (res.map PartData.id).Nodup) ∧
    (∀ drafts, ((import_parts_from_csv drafts parts true).parts.map PartData.id).Nodup) ∧
    (∀ drafts, (drafts.map PartData.id).Nodup →
      ((import_parts_from_csv drafts parts false).parts.map PartData.id).Nodup) := by
  refine ⟨?_, ?_, ?_, ?_⟩
  · intro p rfok iok
    cases rfok with
    | false => exact hnd
    | true =>
      unfold add_part_submit
      simp only [Bool.not_true, if_neg (by simp : ¬(false = true))]
      by_cases ha : parts.any (fun q => q.id == p.id) = true
      · rw [if_pos ha]; exact hnd
      · rw [if_neg ha]
        cases iok with
        | false => exact hnd
        | true =>
          show ((save_part parts p).map PartData.id).Nodup
          unfold save_part
          rw [List.map_append]
          refine List.Nodup.append hnd (List.nodup_singleton _) ?_
          intro a hain hasing
          rcases List.mem_singleton.mp hasing with rfl
          rcases List.mem_map.mp hain with ⟨q, hq, hqid⟩
          have hane := List.any_eq_false.mp (Bool.of_not_eq_true ha) q hq
          simp only [beq_iff_eq] at hane
          exact hane hqid
  · intro pid upd ext himg res hid hup
    have hmap := update_part_list_map_id pid (build_updated upd ext himg)
      (fun q => by rw [build_updated_id]; exact hid) parts res hup
    rw [hmap]
    exact hnd
  · intro drafts
    have hparts : (import_parts_from_csv drafts parts true).parts =
        (dictUpsertAll (dictUpsertAll (dictUpsertAll [] parts)
          (check_duplicates drafts parts).2)
          (check_duplicates drafts parts).1).map Prod.snd := rfl
    rw [hparts, dict_values_ids_eq_keys]
    · exact dictUpsertAll_keys_nodup _ _ (dictUpsertAll_keys_nodup _ _
        (dictUpsertAll_keys_nodup _ _ (by simp)))
    · exact dictUpsertAll_consistent _ _ (dictUpsertAll_consistent _ _
        (dictUpsertAll_consistent _ _ (fun kv hkv => absurd hkv (List.not_mem_nil kv))))
  · intro drafts hdr
    have hparts : (import_parts_from_csv drafts parts false).parts =
        parts ++ (check_duplicates drafts parts).1 := rfl
    rw [hparts, List.map_append]
    refine List.Nodup.append hnd ((check_duplicates_nodup drafts parts hdr).1) ?_
    intro a hain haun
    rcases List.mem_map.mp haun with ⟨u, hu, huid⟩
    have hcf := (check_duplicates_subset_left drafts parts u hu).2
    have hct : (parts.map PartData.id).contains u.id = true := by
      rw [huid]; exact List.elem_iff.mpr hain
    rw [hcf] at hct
    cases hct

theorem update_part_list_none (pid : String) (f : PartData → PartData) :
    ∀ parts : List PartData, (∀ q ∈ parts, q.id ≠ pid) →
      update_part_list pid f parts = none := by
  intro parts
  induction parts with
  | nil => intro _; rfl
  | cons p rest ih =>
    intro h
    rw [update_part_list, if_neg (h p (List.mem_cons_self p rest)),
      ih (fun q hq => h q (List.mem_cons_of_mem p hq))]
    rfl

theorem update_part_list_replace (pid : String) (f : PartData → PartData) :
    ∀ (l1 : List PartData) (old : PartData) (l2 : List PartData),
      (∀ q ∈ l1, q.id ≠ pid) → old.id = pid →
      update_part_list pid f (l1 ++ old :: l2) = some (l1 ++ f old :: l2) := by
  intro l1
  induction l1 with
  | nil =>
    intro old l2 _ hold
    simp only [List.nil_append, update_part_list, if_pos hold]
  | cons q l1 ih =>
    intro old l2 hq hold
    have hqne : q.id ≠ pid := hq q (List.mem_cons_self q l1)
    show update_part_list pid f (q :: (l1 ++ old :: l2)) = _
    rw [update_part_list, if_neg hqne,
      ih old l2 (fun x hx => hq x (List.mem_cons_of_mem q hx)) hold]
    rfl

/-- C10: when no catalog record has the requested id, `update_part` returns
False and nothing is written; when one does, it returns True and writes back
the catalog with exactly the first such record replaced and every other
record unchanged; and when no new image is supplied and the updated data
carries no image_file field, the replacement keeps the old record's
image_file while every other field comes from the updated data. -/
theorem c10_update_part (parts : List PartData) (pid : String) (upd : PartData)
    (ext : Option String) (himg : Bool) :
    ((∀ q ∈ parts, q.id ≠ pid) → update_part parts pid upd ext himg = none) ∧
    (∀ l1 old l2, parts = l1 ++ old :: l2 → (∀ q ∈ l1, q.id ≠ pid) → old.id = pid →
      update_part parts pid upd ext himg =
        some (l1 ++ build_updated upd ext himg old :: l2)) ∧
    (∀ old, ext = none → himg = false →
      (build_updated upd ext himg old).image_file = old.image_file ∧
      (build_updated upd ext himg old).id = upd.id ∧
      (build_updated upd ext himg old).name = upd.name ∧
      (build_updated upd ext himg old).category = upd.category ∧
      (build_updated upd ext himg old).item_type = upd.item_type ∧
      (build_updated upd ext himg old).inspection_items = upd.inspection_items ∧
      (build_updated upd ext himg old).cautions = upd.cautions ∧
      (build_updated upd ext himg old).storage = upd.storage ∧
      (build_updated upd ext himg old).image_description = upd.image_description ∧
      (build_updated upd ext himg old).required_products = upd.required_products) := by
  refine ⟨?_, ?_, ?_⟩
  · intro h
    exact update_part_list_none pid _ parts h
  · intro l1 old l2 hsplit h1 hold
    rw [update_part, hsplit]
    exact update_part_list_replace pid _ l1 old l2 h1 hold
  · intro old he hh
    subst he
    subst hh
    exact ⟨rfl, rfl, rfl, rfl, rfl, rfl, rfl, rfl, rfl, rfl⟩

theorem length_filter_eq_iff {α : Type} (p : α → Bool) (l : List α) :
    (l.filter p).length = l.length ↔ ∀ a ∈ l, p a = true := by
  constructor
  · intro h a ha
    have heq : l.filter p = l := (l.filter_sublist).eq_of_length h
    rw [← heq] at ha
    exact List.of_mem_filter ha
  · intro h
    rw [List.filter_eq_self.mpr h]

theorem allItemsJudged_iff (js : List Verdict) :
    allItemsJudged js = true ↔ ∀ v ∈ js, v ≠ Verdict.indet := by
  simp only [allItemsJudged, decide_eq_true_eq, collectJudgments,
    length_filter_eq_iff, decide_eq_true_eq]

theorem fail_mem_collect_iff (js : List Verdict) :
    Verdict.fail ∈ collectJudgments js ↔ Verdict.fail ∈ js := by
  simp [collectJudgments]

/-- C9: once every item has a non-indeterminate verdict the aggregate is Fail
iff some item is Fail and Pass iff all items are Pass; while any item is
indeterminate the aggregate is undetermined; export is enabled exactly when
all items are determined, the aggregate is Pass, an inspector name is present
and a part is selected — hence a Fail on any item always blocks export. -/
theorem c9_aggregate_and_gate (js : List Verdict) (h6 : js.length = 6)
    (inspector_name : String) (part_selected : Bool) :
    ((∀ v ∈ js, v ≠ Verdict.indet) →
      ((overallJudgment js = Verdict.fail ↔ Verdict.fail ∈ js) ∧
       (overallJudgment js = Verdict.pass ↔ ∀ v ∈ js, v = Verdict.pass))) ∧
    (Verdict.indet ∈ js → overallJudgment js = Verdict.indet) ∧
    (exportEnabled js inspector_name part_selected = true ↔
      ((∀ v ∈ js, v ≠ Verdict.indet) ∧ overallJudgment js = Verdict.pass ∧
        inspector_name ≠ "" ∧ part_selected = true)) ∧
    (Verdict.fail ∈ js → exportEnabled js inspector_name part_selected = false) := by
  have hgate : exportEnabled js inspector_name part_selected = true ↔
      ((∀ v ∈ js, v ≠ Verdict.indet) ∧ overallJudgment js = Verdict.pass ∧
        inspector_name ≠ "" ∧ part_selected = true) := by
    simp only [exportEnabled, Bool.and_eq_true, decide_eq_true_eq, allItemsJudged_iff,
      and_assoc]
  refine ⟨?_, ?_, hgate, ?_⟩
  · intro hall
    have hj : allItemsJudged js = true := (allItemsJudged_iff js).mpr hall
    constructor
    · constructor
      · intro ho
        by_cases hf : Verdict.fail ∈ collectJudgments js
        · exact (fail_mem_collect_iff js).mp hf
        · rw [overallJudgment, if_pos hj, if_neg hf] at ho
          cases ho
      · intro hf
        rw [overallJudgment, if_pos hj, if_pos ((fail_mem_collect_iff js).mpr hf)]
    · constructor
      · intro ho v hv
        by_cases hf : Verdict.fail ∈ collectJudgments js
        · rw [overallJudgment, if_pos hj, if_pos hf] at ho
          cases ho
        · have hvne := hall v hv
          have hvnf : v ≠ Verdict.fail := by
            intro hvf
            exact hf ((fail_mem_collect_iff js).mpr (hvf ▸ hv))
          cases v
          · rfl
          · exact absurd rfl hvnf
          · exact absurd rfl hvne
      · intro hp
        have hf : Verdict.fail ∉ collectJudgments js := by
          rw [fail_mem_collect_iff]
          intro hmem
          cases hp Verdict.fail hmem
        rw [overallJudgment, if_pos hj, if_neg hf]
  · intro hin
    have hnj : allItemsJudged js ≠ true := by
      intro hj
      exact ((allItemsJudged_iff js).mp hj) Verdict.indet hin rfl
    rw [overallJudgment, if_neg hnj]
  · intro hf
    have hne : ¬(exportEnabled js inspector_name part_selected = true) := by
      rw [hgate]
      rintro ⟨hall, hpass, -, -⟩
      have hfail : overallJudgment js = Verdict.fail := by
        rw [overallJudgment, if_pos ((allItemsJudged_iff js).mpr hall),
          if_pos ((fail_mem_collect_iff js).mpr hf)]
      rw [hfail] at hpass
      cases hpass
    exact Bool.eq_false_iff.mpr hne

/-- Witness for C7 (amended): overwriting import of drafts A (duplicate) and
B (unique) into the catalog [A]: both drafts land in the result, the stale
record with id A is gone, skip is 0 and success counts both. -/
theorem c7_merge_import_witness :
    exPartA2 ∈ (import_parts_from_csv [exPartA2, exPartB] [exPartA] true).parts ∧
    exPartA ∉ (import_parts_from_csv [exPartA2, exPartB] [exPartA] true).parts ∧
    (import_parts_from_csv [exPartA2, exPartB] [exPartA] true).skip = 0 ∧
    (import_parts_from_csv [exPartA2, exPartB] [exPartA] true).success = 1 + 1 := by
  have h := c7_merge_import [exPartA2, exPartB] [exPartA] (by decide) (by decide)
  refine ⟨h.2.2.1 exPartA2 (by decide), ?_, h.2.1.2.1, ?_⟩
  · intro hmem
    rcases h.2.2.2.2.1 exPartA hmem with hin | ⟨-, hnid⟩
    · exact absurd hin (by decide)
    · exact hnid (by decide)
  · rw [h.2.1.1]
    decide

/-- Witness for C8 (amended): the repeated-id draft list from the C8
counterexample merged with overwrite=true keeps the catalog ids distinct. -/
theorem c8_unique_ids_preserved_witness :
    ((import_parts_from_csv
        [⟨"X", "one", "c", "", [], [], "s", "d", none, []⟩,
         ⟨"X", "two", "c", "", [], [], "s", "d", none, []⟩] [exPartA] true).parts.map
        PartData.id).Nodup :=
  (c8_unique_ids_preserved [exPartA] (by decide)).2.2.1
    [⟨"X", "one", "c", "", [], [], "s", "d", none, []⟩,
     ⟨"X", "two", "c", "", [], [], "s", "d", none, []⟩]

/-- Witness for C9: six Pass verdicts with an inspector and a selected part
enable export; one Fail among them blocks it. -/
theorem c9_aggregate_and_gate_witness :
    exportEnabled [Verdict.pass, Verdict.pass, Verdict.pass, Verdict.pass,
      Verdict.pass, Verdict.pass] "山田" true = true ∧
    exportEnabled [Verdict.pass, Verdict.fail, Verdict.pass, Verdict.pass,
      Verdict.pass, Verdict.pass] "山田" true = false := by
  constructor
  · exact (c9_aggregate_and_gate [Verdict.pass, Verdict.pass, Verdict.pass,
      Verdict.pass, Verdict.pass, Verdict.pass] rfl "山田" true).2.2.1.mpr
      ⟨by decide, by decide, by decide, rfl⟩
  · exact (c9_aggregate_and_gate [Verdict.pass, Verdict.fail, Verdict.pass,
      Verdict.pass, Verdict.pass, Verdict.pass] rfl "山田" true).2.2.2
      (by decide)

/-- Witness for C10: updating the only record of a one-part catalog with no
new image and no image_file field replaces it and keeps the old image. -/
theorem c10_update_part_witness :
    update_part [exOld] "A" exUpd none false =
      some [build_updated exUpd none false exOld] ∧
    (build_updated exUpd none false exOld).image_file = some "A.png" ∧
    (build_updated exUpd none false exOld).name = "n2" := by
  have h := c10_update_part [exOld] "A" exUpd none false
  refine ⟨h.2.1 [] exOld [] rfl (by simp) (by decide), ?_, ?_⟩
  · rw [(h.2.2 exOld rfl rfl).1]; rfl
  · rw [(h.2.2 exOld rfl rfl).2.2.1]; rfl
